import Mathlib

/-!
Verification of the streamshare client (`src/lib.rs`) against its
natural-language specification.

The development shallowly embeds the two cores of the crate:

* the chunked upload engine `StreamShare::upload` — the read/send/ack loop
  over a WebSocket, modelled as a pure function from the file content, the
  chunk size and the list of server responses to an event trace plus a
  typed result;
* the download path-resolution and write logic of `StreamShare::download`,
  modelled over an abstract filesystem probe (a function from paths to
  what the filesystem reports there), producing the resolved path, the
  filesystem events performed, and a typed result.

Machine integers of the source (`usize`, `u64`) are modelled as `Nat`:
no arithmetic in the modelled code can overflow a `u64` for any file a
real filesystem holds, and the source performs no wrapping arithmetic.
Errors, which the source reports as boxed strings built with `format!`,
are modelled as constructors of small error types named after the spec's
taxonomy; each constructor's doc comment points at the `format!` string
it stands for.
-/

namespace StreamshareModel

/-! ## Upload engine -/

/-- Message is the subset of `tungstenite::Message` relevant to the client:
the server may answer a chunk with a text frame, a binary frame, a ping,
a pong or a close frame.  Only `text "ACK"` lets the loop continue. -/
inductive WsMessage where
  | text (s : String)
  | binary (payload : List Nat)
  | ping
  | pong
  | close
  deriving DecidableEq, Repr

/-- ServerResp models one outcome of `ws_stream.next().await`:
`msg m` is `Some(Ok(m))`, `err` is `Some(Err(_))`, and `closed` is `None`
(the stream ended). -/
inductive ServerResp where
  | msg (m : WsMessage)
  | err
  | closed
  deriving DecidableEq, Repr

/-- ackResp is the one response that lets the upload loop continue:
`Some(Ok(Message::Text(t)))` with `t == "ACK"`. -/
def ackResp : ServerResp := .msg (.text "ACK")

/-- UploadErr is the error taxonomy of the upload loop body:
`unexpectedMessage` is the `format!("Unexpected message: ...")` arm,
`transportError` is the `format!("WebSocket error: ...")` arm, and
`prematureClose` is the `"WebSocket closed unexpectedly"` arm. -/
inductive UploadErr where
  | unexpectedMessage
  | transportError
  | prematureClose
  deriving DecidableEq, Repr

/-- Ev is an observable event of one upload run: a binary WebSocket frame
sent (`ws_stream.send(Message::Binary(chunk))`), a progress callback
invocation (`callback(uploaded, file_size)`), a receive on the stream
(`ws_stream.next().await`), or the final close frame
(`ws_stream.close(..)` with the given reason text). -/
inductive Ev where
  | sendFrame (payload : List Nat)
  | callback (sent total : Nat)
  | recv (r : ServerResp)
  | closeFrame (reason : String)
  deriving DecidableEq, Repr

/-- readChunksF is `readChunks` below with an explicit iteration bound
`fuel`, so that the definition is structurally recursive and computable by
reduction.  Any `fuel ≥ l.length` gives the same value
(`readChunksF_fuel`); the `fuel = 0` row with a nonempty list is then
unreachable. -/
def readChunksF (C : Nat) : Nat → List Nat → List (List Nat)
  | _, [] => []
  | 0, _ :: _ => []
  | fuel + 1, a :: as =>
    if C = 0 then []
    else (a :: as).take C :: readChunksF C fuel ((a :: as).drop C)

/-- readChunks models the sequence of buffers produced by the read loop
`let n = file.read(&mut buffer).await?` over a buffer of size `C`: each
read returns the next `min C remaining` bytes of the file, and a read
into an empty buffer (`C = 0`) returns `0` at once, ending the loop.
The loop runs at most `l.length` iterations, which bounds the fuel. -/
def readChunks (C : Nat) (l : List Nat) : List (List Nat) :=
  readChunksF C l.length l

/-- runChunks is the body of the upload loop, one iteration per chunk:
send the chunk as a binary frame, add its length to `uploaded`, invoke the
callback, then match one response from the stream.  `u` is the `uploaded`
accumulator and `total` the `file_size` captured before the loop. -/
def runChunks (total u : Nat) (chunks : List (List Nat))
    (resps : List ServerResp) : List Ev × Except UploadErr Unit :=
  match chunks with
  | [] => ([], .ok ())
  | c :: cs =>
    let u' := u + c.length
    let pre : List Ev := [.sendFrame c, .callback u' total]
    match resps with
    | [] => (pre ++ [.recv .closed], .error .prematureClose)
    | r :: rs =>
      match r with
      | .msg (.text t) =>
        if t = "ACK" then
          let rest := runChunks total u' cs rs
          (pre ++ [.recv r] ++ rest.1, rest.2)
        else (pre ++ [.recv r], .error .unexpectedMessage)
      | .msg _ => (pre ++ [.recv r], .error .unexpectedMessage)
      | .err => (pre ++ [.recv r], .error .transportError)
      | .closed => (pre ++ [.recv r], .error .prematureClose)

/-- upload models `StreamShare::upload` from the point the WebSocket is
open: the file content is read in chunks of `C` bytes, each chunk is sent
and must be acknowledged, and on normal loop exit a close frame with
reason `"FILE_UPLOAD_DONE"` is sent.  `total` is the file size captured
once, from metadata, before the loop. -/
def upload (C : Nat) (content : List Nat) (resps : List ServerResp) :
    List Ev × Except UploadErr Unit :=
  let total := content.length
  let out := runChunks total 0 (readChunks C content) resps
  match out.2 with
  | .ok _ => (out.1 ++ [.closeFrame "FILE_UPLOAD_DONE"], .ok ())
  | .error e => (out.1, .error e)

/-- StreamShare carries the per-client configuration; `client : Client`
holds no modelled state and is omitted. -/
structure StreamShare where
  server_url : String
  chunk_size : Nat
  deriving DecidableEq, Repr

/-- StreamShare.new stores its arguments unchecked, exactly as the
source constructor does. -/
def StreamShare.new (server_url : String) (chunk_size : Nat) : StreamShare :=
  { server_url := server_url, chunk_size := chunk_size }

/-- sentFrames extracts the payloads of the binary frames sent in a trace. -/
def sentFrames (evs : List Ev) : List (List Nat) :=
  evs.filterMap fun e =>
    match e with
    | .sendFrame c => some c
    | _ => none

/-- callbackEvs extracts the `(bytesSent, totalBytes)` arguments of the
progress-callback invocations of a trace, in order. -/
def callbackEvs (evs : List Ev) : List (Nat × Nat) :=
  evs.filterMap fun e =>
    match e with
    | .callback u t => some (u, t)
    | _ => none

/-- iterTrace is the event trace of the loop when every response is an
acknowledgement: per chunk, the binary frame is sent, the callback is
invoked with the new cumulative count, and then the ACK is received. -/
def iterTrace (total : Nat) : Nat → List (List Nat) → List Ev
  | _, [] => []
  | u, c :: cs =>
    [.sendFrame c, .callback (u + c.length) total, .recv ackResp] ++
      iterTrace total (u + c.length) cs

/-- respErr maps a non-ACK receive outcome to the error the loop returns
for it: any well-formed frame other than text "ACK" is `unexpectedMessage`,
a transport error is `transportError`, and a closed stream is
`prematureClose`. -/
def respErr : ServerResp → UploadErr
  | .msg _ => .unexpectedMessage
  | .err => .transportError
  | .closed => .prematureClose

/-- isCallbackEv tests a trace event for being a progress-callback
invocation. -/
def isCallbackEv : Ev → Bool
  | .callback _ _ => true
  | _ => false

/-- isRecvEv tests a trace event for being a receive on the stream. -/
def isRecvEv : Ev → Bool
  | .recv _ => true
  | _ => false

/-! ## Download resolver -/

/-- FPath models a filesystem path as Rust's `Path` segments it: an
absolute flag and the list of components.  The empty relative path models
`Path::new("")` (the one path with `as_os_str().is_empty()`), and the
empty absolute path models the root `/`. -/
structure FPath where
  absolute : Bool
  comps : List String
  deriving DecidableEq, Repr

/-- isEmptyPath is `path.as_os_str().is_empty()`. -/
def isEmptyPath (p : FPath) : Bool :=
  !p.absolute && p.comps.isEmpty

/-- parent is `Path::parent`: drop the final component; `None` when the
path terminates in a root or is the empty path.  In particular the parent
of a bare relative name such as `"foo"` is `Some("")`, the empty relative
path — exactly as in Rust. -/
def FPath.parent (p : FPath) : Option FPath :=
  match p.comps with
  | [] => none
  | _ :: _ => some ⟨p.absolute, p.comps.dropLast⟩

/-- joinPath is `Path::join`: an absolute argument replaces the path,
otherwise its components are appended. -/
def joinPath (p q : FPath) : FPath :=
  if q.absolute then q else ⟨p.absolute, p.comps ++ q.comps⟩

/-- splitOnChar is `str::split(c)`: the segments between occurrences of
the character, empty segments included. -/
def splitOnChar (c : Char) : List Char → List (List Char)
  | [] => [[]]
  | x :: xs =>
    let r := splitOnChar c xs
    if x = c then [] :: r
    else
      match r with
      | [] => [[x]]
      | y :: ys => (x :: y) :: ys

/-- trimChars is `str::trim`: remove leading and trailing whitespace. -/
def trimChars (l : List Char) : List Char :=
  ((l.dropWhile Char.isWhitespace).reverse.dropWhile Char.isWhitespace).reverse

/-- parsePath reads a string as a path the way `Path::new` /
`PathBuf::from` segment it: absolute when the string starts with `/`,
components split on `/` with empty segments dropped.  `..` is kept as a
literal component, as Rust keeps it.  (The paths appearing in this
development contain no `.` components, where Rust's normalization would
differ.) -/
def parsePath (s : String) : FPath :=
  ⟨s.toList.head? == some '/',
    ((splitOnChar '/' s.toList).map String.mk).filter (fun c => c ≠ "")⟩

/-- FsKind is what the filesystem probe reports at a path: nothing there,
a regular file, a directory, or something else (e.g. a special device).
The source's `exists()` is `kind ≠ absent`, `is_file()` is `kind = file`,
`is_dir()` is `kind = dir`. -/
inductive FsKind where
  | absent
  | file
  | dir
  | other
  deriving DecidableEq, Repr

/-- DlErr is the error taxonomy of `StreamShare::download` after a
successful HTTP response: `invalidDestination` is the "Path exists but is
neither a file nor a directory" error, `parentMissing` the "Parent
directory does not exist or is not a directory" error, `alreadyExists`
the "File already exists" error, and `bodyReadFailed` stands for the `?`
on `res.bytes().await` failing while the body is read. -/
inductive DlErr where
  | invalidDestination
  | parentMissing
  | alreadyExists
  | bodyReadFailed
  deriving DecidableEq, Repr

/-- DlEv is an observable filesystem mutation performed by the download
path: `create_dir_all` on a missing parent, `File::create` (which creates
the file, truncating any existing content), and the final `write_all` of
the whole body. -/
inductive DlEv where
  | createDirAll (p : FPath)
  | createFile (p : FPath)
  | writeAll (p : FPath) (content : List Nat)
  deriving DecidableEq, Repr

/-- dropPatRep is `str::trim_start_matches(pat)` on character lists:
repeatedly remove `pat` from the front while it is a prefix.  Each
removal shortens the list by at least one character when `pat` is
nonempty, so `fuel = l.length` iterations always suffice. -/
def dropPatRep (pat : List Char) : Nat → List Char → List Char
  | 0, l => l
  | fuel + 1, l =>
    if pat ≠ [] ∧ pat = l.take pat.length then
      dropPatRep pat fuel (l.drop pat.length)
    else l

/-- trimMatchesChar is `str::trim_matches(c)` for a character pattern:
remove every leading and trailing occurrence of the character. -/
def trimMatchesChar (c : Char) (l : List Char) : List Char :=
  ((l.dropWhile (· = c)).reverse.dropWhile (· = c)).reverse

/-- parseFileName models the derivation of `file_name` from the
`content-disposition` header, given as `none` when the header is absent
or not valid text: scan the semicolon-separated parts for one whose
trimmed form starts with `filename=`, strip every leading repetition of
that prefix and all surrounding `"` characters; fall back to
`"{file_identifier}.unknown"` when no part matches. -/
def parseFileName (file_identifier : String) (header : Option String) :
    String :=
  let unknown := file_identifier ++ ".unknown"
  match header with
  | none => unknown
  | some hv =>
    match (splitOnChar ';' hv.toList).findSome? (fun part =>
        let trimmed := trimChars part
        if "filename=".toList = trimmed.take "filename=".toList.length then
          some (String.mk (trimMatchesChar '"'
            (dropPatRep "filename=".toList trimmed.length trimmed)))
        else none) with
    | some n => n
    | none => unknown

/-- resolvePath is the `file_path` case analysis of
`StreamShare::download`, with the filesystem injected as the probe `fs`.
`dest` is the destination after tilde expansion (`shellexpand::tilde`
rewrites a leading `~`; the model receives the already-expanded path). -/
def resolvePath (fs : FPath → FsKind) (file_name : String) (dest : FPath) :
    Except DlErr FPath :=
  if isEmptyPath dest then .ok (parsePath file_name)
  else if fs dest ≠ .absent then
    if fs dest = .dir then .ok (joinPath dest (parsePath file_name))
    else if fs dest = .file then .ok dest
    else .error .invalidDestination
  else
    match dest.parent with
    | some par =>
      if fs par ≠ .absent ∧ fs par = .dir then .ok dest
      else .error .parentMissing
    | none => .ok dest

/-- downloadWrite is the tail of `StreamShare::download` after path
resolution: the exists/replace check, a conditional `create_dir_all` on a
missing parent, `File::create`, the body read (`res.bytes().await`,
given as an `Except` since the model does not perform I/O), and
`write_all`.  It returns the filesystem events in program order together
with the result. -/
def downloadWrite (fs : FPath → FsKind) (replace : Bool) (file_path : FPath)
    (body : Except Unit (List Nat)) : List DlEv × Except DlErr Unit :=
  if fs file_path ≠ .absent ∧ replace = false then
    ([], .error .alreadyExists)
  else
    let dirEvs : List DlEv :=
      match file_path.parent with
      | some par => if fs par = .absent then [.createDirAll par] else []
      | none => []
    match body with
    | .error _ => (dirEvs ++ [.createFile file_path], .error .bodyReadFailed)
    | .ok content =>
      (dirEvs ++ [.createFile file_path, .writeAll file_path content], .ok ())

/-- download models `StreamShare::download` from the point the HTTP
response arrived with the given `content-disposition` header and body:
derive the file name, resolve the write path against the destination,
then perform the write sequence.  A resolution error performs no
filesystem mutation. -/
def download (fs : FPath → FsKind) (file_identifier : String)
    (header : Option String) (dest : FPath) (replace : Bool)
    (body : Except Unit (List Nat)) : List DlEv × Except DlErr Unit :=
  match resolvePath fs (parseFileName file_identifier header) dest with
  | .error e => ([], .error e)
  | .ok fp => downloadWrite fs replace fp body

/-- normCompsAux lexically resolves `..` against preceding normal
components, keeping a leading run of `..`; `stack` holds the output so
far, reversed. -/
def normCompsAux : List String → List String → List String
  | stack, [] => stack.reverse
  | stack, c :: rest =>
    if c = ".." then
      match stack with
      | [] => normCompsAux [".."] rest
      | s :: ss =>
        if s = ".." then normCompsAux (".." :: stack) rest
        else normCompsAux ss rest
    else normCompsAux (c :: stack) rest

/-- normComps is the lexical normalization of a component list: `..`
cancels the preceding normal component; a leading run of `..` remains. -/
def normComps (l : List String) : List String := normCompsAux [] l

/-- outsideCwd holds of a relative path that escapes the current working
directory: its normalized components begin with `..`. -/
def outsideCwd (p : FPath) : Bool :=
  !p.absolute && ((normComps p.comps).head? == some "..")

/-- insideDir holds when the normalized resolved path still starts with
the directory's components (with matching absoluteness): the path stays
within that directory. -/
def insideDir (dir p : FPath) : Bool :=
  (dir.absolute == p.absolute) &&
    (dir.comps == (normComps p.comps).take dir.comps.length)

/-- fsEmpty is the filesystem probe with nothing present. -/
def fsEmpty : FPath → FsKind := fun _ => .absent

/-- fsDirD is the filesystem probe in which exactly the relative
directory `d` exists. -/
def fsDirD : FPath → FsKind :=
  fun p => if p = ⟨false, ["d"]⟩ then .dir else .absent

/-- fsFileF is the filesystem probe in which exactly the relative file
`f` exists. -/
def fsFileF : FPath → FsKind :=
  fun p => if p = ⟨false, ["f"]⟩ then .file else .absent

/-- fsOtherS is the filesystem probe in which exactly the relative entry
`s` exists and is neither a regular file nor a directory. -/
def fsOtherS : FPath → FsKind :=
  fun p => if p = ⟨false, ["s"]⟩ then .other else .absent

/-! ### Chunking lemmas -/

theorem readChunksF_fuel (C : Nat) :
    ∀ (fuel fuel' : Nat) (l : List Nat), l.length ≤ fuel → l.length ≤ fuel' →
      readChunksF C fuel l = readChunksF C fuel' l := by
  intro fuel
  induction fuel with
  | zero =>
    intro fuel' l h _
    cases l with
    | nil => cases fuel' <;> rfl
    | cons a as => simp at h
  | succ f ih =>
    intro fuel' l h h'
    cases l with
    | nil => cases fuel' <;> rfl
    | cons a as =>
      cases fuel' with
      | zero => simp at h'
      | succ f' =>
        simp only [readChunksF]
        by_cases hC : C = 0
        · simp [hC]
        · simp only [hC, if_false]
          have hd : ((a :: as).drop C).length ≤ f := by
            rw [List.length_drop]
            simp only [List.length_cons] at h ⊢
            omega
          have hd' : ((a :: as).drop C).length ≤ f' := by
            rw [List.length_drop]
            simp only [List.length_cons] at h' ⊢
            omega
          rw [ih f' _ hd hd']

theorem readChunks_nil (C : Nat) : readChunks C ([] : List Nat) = [] := rfl

theorem readChunks_zero (l : List Nat) : readChunks 0 l = [] := by
  cases l <;> rfl

theorem readChunks_cons (C : Nat) (l : List Nat) (hC : C ≠ 0) (hl : l ≠ []) :
    readChunks C l = l.take C :: readChunks C (l.drop C) := by
  cases l with
  | nil => exact absurd rfl hl
  | cons a as =>
    show readChunksF C (as.length + 1) (a :: as) = _
    simp only [readChunksF, hC, if_false]
    congr 1
    apply readChunksF_fuel
    · rw [List.length_drop]
      simp only [List.length_cons]
      omega
    · exact Nat.le_refl _

/-- Summing the chunk lengths gives back the file size. -/
theorem readChunks_sum (C : Nat) (l : List Nat) :
    ((readChunks C l).map List.length).sum = if C = 0 then 0 else l.length := by
  by_cases hC : C = 0
  · simp [hC, readChunks_zero]
  · simp only [hC, if_false]
    suffices hgen : ∀ n (l : List Nat), l.length = n →
        ((readChunks C l).map List.length).sum = l.length from hgen _ l rfl
    intro n
    induction n using Nat.strong_induction_on with
    | _ n ih =>
      intro l hn
      cases l with
      | nil => simp [readChunks_nil]
      | cons a as =>
        rw [readChunks_cons C _ hC (by simp)]
        have hlt : ((a :: as).drop C).length < (a :: as).length := by
          rw [List.length_drop]; simp; omega
        rw [List.map_cons, List.sum_cons,
          ih ((a :: as).drop C).length (hn ▸ hlt) _ rfl]
        rw [List.length_take, List.length_drop]
        omega

/-- Number of chunks is the ceiling of size over chunk size. -/
theorem readChunks_length (C : Nat) (l : List Nat) (hC : C ≠ 0) :
    (readChunks C l).length = (l.length + C - 1) / C := by
  suffices hgen : ∀ n (l : List Nat), l.length = n →
      (readChunks C l).length = (l.length + C - 1) / C from hgen _ l rfl
  intro n
  induction n using Nat.strong_induction_on with
  | _ n ih =>
    intro l hn
    cases l with
    | nil =>
      rw [readChunks_nil]
      simp only [List.length_nil]
      exact (Nat.div_eq_of_lt (by omega)).symm
    | cons a as =>
      rw [readChunks_cons C _ hC (by simp)]
      have hlt : ((a :: as).drop C).length < (a :: as).length := by
        rw [List.length_drop]; simp; omega
      rw [List.length_cons, ih ((a :: as).drop C).length (hn ▸ hlt) _ rfl]
      rw [List.length_drop]
      have hpos : 0 < (a :: as).length := by simp
      rcases Nat.lt_or_ge (a :: as).length C with hcase | hcase
      · have h1 : (a :: as).length - C = 0 := by omega
        rw [h1]
        have h2 : (0 + C - 1) / C = 0 := Nat.div_eq_of_lt (by omega)
        have h3 : ((a :: as).length + C - 1) / C = 1 :=
          Nat.div_eq_of_lt_le (by omega) (by omega)
        rw [h2, h3]
      · have h1 : (a :: as).length - C + C - 1 = (a :: as).length - 1 := by omega
        have h2 : (a :: as).length + C - 1 = ((a :: as).length - 1) + C := by omega
        rw [h1, h2, Nat.add_div_right _ (by omega)]

/-- Every chunk except possibly the last has length exactly `C`. -/
theorem readChunks_sizes (C : Nat) (l : List Nat) (hC : C ≠ 0) (i : Nat)
    (hi : i + 1 < (readChunks C l).length) :
    ((readChunks C l).get? i).map List.length = some C := by
  suffices hgen : ∀ n (l : List Nat), l.length = n → ∀ i, i + 1 < (readChunks C l).length →
      ((readChunks C l).get? i).map List.length = some C from hgen _ l rfl i hi
  clear hi i l
  intro n
  induction n using Nat.strong_induction_on with
  | _ n ih =>
    intro l hn i hi
    cases l with
    | nil => rw [readChunks_nil] at hi; simp at hi
    | cons a as =>
      rw [readChunks_cons C _ hC (by simp)] at hi ⊢
      cases i with
      | zero =>
        have hdrop : readChunks C ((a :: as).drop C) ≠ [] := by
          intro hemp
          rw [hemp] at hi
          simp at hi
        have hdne : (a :: as).drop C ≠ [] := by
          intro hd
          rw [hd, readChunks_nil] at hdrop
          exact hdrop rfl
        have hlen : C < (a :: as).length := by
          by_contra hle
          push_neg at hle
          have : (a :: as).drop C = [] := List.drop_eq_nil_of_le hle
          exact hdne this
        simp only [List.get?_cons_zero, Option.map_some', List.length_take]
        rw [Nat.min_eq_left (Nat.le_of_lt hlen)]
      | succ j =>
        have hlt : ((a :: as).drop C).length < (a :: as).length := by
          rw [List.length_drop]; simp; omega
        simp only [List.get?_cons_succ]
        exact ih ((a :: as).drop C).length (hn ▸ hlt) _ rfl j
          (by simpa using hi)

/-! ### Trace characterization -/

/-- Whenever the loop finishes without an error, its trace is exactly the
fully acknowledged trace: send, callback, receive-ACK, per chunk. -/
theorem runChunks_ok_trace (total : Nat) :
    ∀ (chunks : List (List Nat)) (resps : List ServerResp) (u : Nat),
      (runChunks total u chunks resps).2 = .ok () →
      (runChunks total u chunks resps).1 = iterTrace total u chunks := by
  intro chunks
  induction chunks with
  | nil => intro resps u _; simp [runChunks, iterTrace]
  | cons c cs ih =>
    intro resps u hok
    cases resps with
    | nil => simp [runChunks] at hok
    | cons r rs =>
      cases r with
      | msg m =>
        cases m with
        | text t =>
          by_cases ht : t = "ACK"
          · subst ht
            simp only [runChunks, if_pos rfl] at hok ⊢
            simp only [iterTrace]
            rw [ih rs _ hok]
            rfl
          · simp [runChunks, ht] at hok
        | binary p => simp [runChunks] at hok
        | ping => simp [runChunks] at hok
        | pong => simp [runChunks] at hok
        | close => simp [runChunks] at hok
      | err => simp [runChunks] at hok
      | closed => simp [runChunks] at hok

/-- Trace of a successful upload: the fully acknowledged loop trace
followed by the close frame with reason "FILE_UPLOAD_DONE". -/
theorem upload_ok_trace (C : Nat) (content : List Nat) (resps : List ServerResp)
    (hok : (upload C content resps).2 = .ok ()) :
    (upload C content resps).1 =
      iterTrace content.length 0 (readChunks C content) ++
        [.closeFrame "FILE_UPLOAD_DONE"] := by
  unfold upload at hok ⊢
  cases hr : (runChunks content.length 0 (readChunks C content) resps).2 with
  | ok u =>
    simp only [hr]
    rw [runChunks_ok_trace content.length _ resps 0 hr]
  | error e => simp [hr] at hok

theorem sentFrames_append (xs ys : List Ev) :
    sentFrames (xs ++ ys) = sentFrames xs ++ sentFrames ys := by
  simp [sentFrames, List.filterMap_append]

theorem callbackEvs_append (xs ys : List Ev) :
    callbackEvs (xs ++ ys) = callbackEvs xs ++ callbackEvs ys := by
  simp [callbackEvs, List.filterMap_append]

/-- Frames of the fully acknowledged trace are exactly the chunks. -/
theorem sentFrames_iterTrace (total : Nat) :
    ∀ (chunks : List (List Nat)) (u : Nat),
      sentFrames (iterTrace total u chunks) = chunks := by
  intro chunks
  induction chunks with
  | nil => intro u; rfl
  | cons c cs ih =>
    intro u
    simp only [iterTrace, sentFrames_append]
    rw [ih]
    rfl

theorem callbackEvs_iterTrace_cons (total u : Nat) (c : List Nat)
    (cs : List (List Nat)) :
    callbackEvs (iterTrace total u (c :: cs)) =
      (u + c.length, total) :: callbackEvs (iterTrace total (u + c.length) cs) := by
  simp only [iterTrace, callbackEvs_append]
  rfl

/-- Last callback of the fully acknowledged trace reports all bytes. -/
theorem callbackEvs_iterTrace_getLast (total : Nat) :
    ∀ (chunks : List (List Nat)) (u : Nat), chunks ≠ [] →
      (callbackEvs (iterTrace total u chunks)).getLast? =
        some (u + (chunks.map List.length).sum, total) := by
  intro chunks
  induction chunks with
  | nil => intro u h; exact absurd rfl h
  | cons c cs ih =>
    intro u _
    rw [callbackEvs_iterTrace_cons]
    cases cs with
    | nil => simp [iterTrace, callbackEvs]
    | cons d ds =>
      rw [callbackEvs_iterTrace_cons, List.getLast?_cons_cons,
        ← callbackEvs_iterTrace_cons]
      rw [ih (u + c.length) (by simp)]
      simp only [List.map_cons, List.sum_cons, Option.some.injEq, Prod.mk.injEq]
      exact ⟨by omega, trivial⟩

/-- Loop equation: a chunk answered by the acknowledgement. -/
theorem runChunks_cons_ack (total u : Nat) (c : List Nat)
    (cs : List (List Nat)) (rs : List ServerResp) :
    runChunks total u (c :: cs) (ackResp :: rs) =
      ([Ev.sendFrame c, Ev.callback (u + c.length) total, Ev.recv ackResp] ++
          (runChunks total (u + c.length) cs rs).1,
        (runChunks total (u + c.length) cs rs).2) := by
  simp [runChunks, ackResp]

/-- Loop equation: a chunk answered by anything other than text "ACK". -/
theorem runChunks_cons_noack (total u : Nat) (c : List Nat)
    (cs : List (List Nat)) (r : ServerResp) (rs : List ServerResp)
    (hr : r ≠ ackResp) :
    runChunks total u (c :: cs) (r :: rs) =
      ([Ev.sendFrame c, Ev.callback (u + c.length) total, Ev.recv r],
        .error (respErr r)) := by
  cases r with
  | msg m =>
    cases m with
    | text t =>
      have ht : t ≠ "ACK" := fun h => hr (by rw [ackResp, h])
      simp [runChunks, respErr, ht]
    | binary q => simp [runChunks, respErr]
    | ping => simp [runChunks, respErr]
    | pong => simp [runChunks, respErr]
    | close => simp [runChunks, respErr]
  | err => simp [runChunks, respErr]
  | closed => simp [runChunks, respErr]

/-- Loop equation: a chunk with no response left (stream ended). -/
theorem runChunks_cons_nil (total u : Nat) (c : List Nat)
    (cs : List (List Nat)) :
    runChunks total u (c :: cs) [] =
      ([Ev.sendFrame c, Ev.callback (u + c.length) total, Ev.recv .closed],
        .error .prematureClose) := by
  simp [runChunks]

/-- Upload forwards a loop error unchanged, with the loop's trace and no
close frame. -/
theorem upload_error (C : Nat) (content : List Nat) (resps : List ServerResp)
    (e : UploadErr)
    (he : (runChunks content.length 0 (readChunks C content) resps).2 = .error e) :
    upload C content resps =
      ((runChunks content.length 0 (readChunks C content) resps).1, .error e) := by
  simp only [upload]
  rw [he]

theorem callbackEvs_upload (C : Nat) (content : List Nat)
    (resps : List ServerResp) :
    callbackEvs (upload C content resps).1 =
      callbackEvs (runChunks content.length 0 (readChunks C content) resps).1 := by
  simp only [upload]
  cases h : (runChunks content.length 0 (readChunks C content) resps).2 with
  | ok u => simp [h, callbackEvs_append, callbackEvs]
  | error e => simp [h]

/-- After `i` acknowledged chunks, a response `r` other than text "ACK"
aborts the loop with the error `respErr r`, and exactly the first `i + 1`
chunks have been sent. -/
theorem runChunks_abort (total : Nat) :
    ∀ (i : Nat) (chunks : List (List Nat)) (u : Nat) (r : ServerResp)
      (rest : List ServerResp), i < chunks.length → r ≠ ackResp →
      (runChunks total u chunks (List.replicate i ackResp ++ r :: rest)).2 =
        .error (respErr r) ∧
      sentFrames (runChunks total u chunks
          (List.replicate i ackResp ++ r :: rest)).1 = chunks.take (i + 1) := by
  intro i
  induction i with
  | zero =>
    intro chunks u r rest hi hr
    cases chunks with
    | nil => simp at hi
    | cons c cs =>
      rw [List.replicate_zero, List.nil_append,
        runChunks_cons_noack total u c cs r rest hr]
      exact ⟨rfl, rfl⟩
  | succ i ih =>
    intro chunks u r rest hi hr
    cases chunks with
    | nil => simp at hi
    | cons c cs =>
      have hi' : i < cs.length := by
        simp only [List.length_cons] at hi
        omega
      have hrec := ih cs (u + c.length) r rest hi' hr
      rw [List.replicate_succ, List.cons_append, runChunks_cons_ack]
      refine ⟨hrec.1, ?_⟩
      show c :: sentFrames (runChunks total (u + c.length) cs
          (List.replicate i ackResp ++ r :: rest)).1 = _
      rw [hrec.2, List.take_succ_cons]

/-- Every callback of a loop run (successful or aborted) reports at least
`u`, at most `u` plus the bytes remaining, and always the fixed total. -/
theorem callbackEvs_runChunks_bound (total : Nat) :
    ∀ (chunks : List (List Nat)) (resps : List ServerResp) (u : Nat)
      (p : Nat × Nat), p ∈ callbackEvs (runChunks total u chunks resps).1 →
      u ≤ p.1 ∧ p.1 ≤ u + (chunks.map List.length).sum ∧ p.2 = total := by
  intro chunks
  induction chunks with
  | nil =>
    intro resps u p hp
    simp [runChunks, callbackEvs] at hp
  | cons c cs ih =>
    intro resps u p hp
    have hone : p = (u + c.length, total) →
        u ≤ p.1 ∧ p.1 ≤ u + ((c :: cs).map List.length).sum ∧ p.2 = total := by
      intro hmem
      subst hmem
      refine ⟨by omega, ?_, rfl⟩
      simp only [List.map_cons, List.sum_cons]
      omega
    cases resps with
    | nil =>
      rw [runChunks_cons_nil] at hp
      have hp' : p ∈ [(u + c.length, total)] := hp
      exact hone (by simpa using hp')
    | cons r rs =>
      by_cases hr : r = ackResp
      · subst hr
        rw [runChunks_cons_ack] at hp
        have hp' : p ∈ (u + c.length, total) ::
            callbackEvs (runChunks total (u + c.length) cs rs).1 := hp
        rcases List.mem_cons.mp hp' with h1 | h2
        · exact hone h1
        · have hb := ih rs (u + c.length) p h2
          refine ⟨by omega, ?_, hb.2.2⟩
          simp only [List.map_cons, List.sum_cons]
          omega
      · rw [runChunks_cons_noack total u c cs r rs hr] at hp
        have hp' : p ∈ [(u + c.length, total)] := hp
        exact hone (by simpa using hp')

/-- Callback reports are non-decreasing in their first component across
any loop run, successful or aborted. -/
theorem callbackEvs_runChunks_chain (total : Nat) :
    ∀ (chunks : List (List Nat)) (resps : List ServerResp) (u : Nat),
      List.Chain' (fun a b => a.1 ≤ b.1)
        (callbackEvs (runChunks total u chunks resps).1) := by
  intro chunks
  induction chunks with
  | nil => intro resps u; simp [runChunks, callbackEvs]
  | cons c cs ih =>
    intro resps u
    cases resps with
    | nil =>
      rw [runChunks_cons_nil]
      show List.Chain' (fun a b => a.1 ≤ b.1) [(u + c.length, total)]
      simp
    | cons r rs =>
      by_cases hr : r = ackResp
      · subst hr
        rw [runChunks_cons_ack]
        show List.Chain' (fun a b => a.1 ≤ b.1) ((u + c.length, total) ::
          callbackEvs (runChunks total (u + c.length) cs rs).1)
        apply List.chain'_cons'.mpr
        refine ⟨?_, ih rs (u + c.length)⟩
        intro y hy
        have hmem : y ∈ callbackEvs (runChunks total (u + c.length) cs rs).1 :=
          List.mem_of_mem_head? hy
        exact (callbackEvs_runChunks_bound total cs rs (u + c.length) y hmem).1
      · rw [runChunks_cons_noack total u c cs r rs hr]
        show List.Chain' (fun a b => a.1 ≤ b.1) [(u + c.length, total)]
        simp

/-! ## Claims: upload -/

/-- C1: for every file of size `S` uploaded with chunk size `C > 0`, in a
run where the upload returns success, the engine sends exactly
`⌈S / C⌉ = (S + C - 1) / C` binary frames — for the empty file zero
frames, the whole trace being the immediate close frame — the frame
payload lengths sum to `S`, and every frame except possibly the last has
length exactly `C`. -/
theorem c1_chunk_arithmetic (C : Nat) (content : List Nat)
    (resps : List ServerResp) (hC : 0 < C)
    (hok : (upload C content resps).2 = .ok ()) :
    (sentFrames (upload C content resps).1).length =
      (content.length + C - 1) / C ∧
    ((sentFrames (upload C content resps).1).map List.length).sum =
      content.length ∧
    (∀ i, i + 1 < (sentFrames (upload C content resps).1).length →
      ((sentFrames (upload C content resps).1).get? i).map List.length =
        some C) ∧
    (content = [] →
      (upload C content resps).1 = [Ev.closeFrame "FILE_UPLOAD_DONE"]) := by
  have hC' : C ≠ 0 := by omega
  have htr := upload_ok_trace C content resps hok
  have hf : sentFrames (upload C content resps).1 = readChunks C content := by
    rw [htr, sentFrames_append, sentFrames_iterTrace]
    simp [sentFrames]
  refine ⟨?_, ?_, ?_, ?_⟩
  · rw [hf, readChunks_length C content hC']
  · rw [hf]
    have hs := readChunks_sum C content
    rw [if_neg hC'] at hs
    exact hs
  · intro i hlen
    rw [hf] at hlen ⊢
    exact readChunks_sizes C content hC' i hlen
  · intro hnil
    subst hnil
    rw [htr]
    simp [readChunks_nil, iterTrace]

theorem c1_chunk_arithmetic_witness :
    (sentFrames (upload 2 [7, 7, 7] [ackResp, ackResp]).1).length =
      (([7, 7, 7] : List Nat).length + 2 - 1) / 2 ∧
    ((sentFrames (upload 2 [7, 7, 7] [ackResp, ackResp]).1).map
      List.length).sum = ([7, 7, 7] : List Nat).length ∧
    (∀ i, i + 1 < (sentFrames (upload 2 [7, 7, 7] [ackResp, ackResp]).1).length →
      ((sentFrames (upload 2 [7, 7, 7] [ackResp, ackResp]).1).get? i).map
        List.length = some 2) ∧
    (([7, 7, 7] : List Nat) = [] →
      (upload 2 [7, 7, 7] [ackResp, ackResp]).1 =
        [Ev.closeFrame "FILE_UPLOAD_DONE"]) :=
  c1_chunk_arithmetic 2 [7, 7, 7] [ackResp, ackResp] (by decide) rfl

/-- C2: after `i` acknowledged chunks, a response to the next chunk that
is anything other than a text frame "ACK" aborts the upload with the
error `respErr` assigns it — `unexpectedMessage` for any well-formed
frame, `transportError` for a transport-level receive error,
`prematureClose` for the peer ending the stream — and no further chunks
are sent: the frames sent are exactly the first `i + 1` chunks. -/
theorem c2_ack_protocol (C : Nat) (content : List Nat) (i : Nat)
    (r : ServerResp) (rest : List ServerResp)
    (hi : i < (readChunks C content).length) (hr : r ≠ ackResp) :
    (upload C content (List.replicate i ackResp ++ r :: rest)).2 =
      .error (respErr r) ∧
    sentFrames (upload C content (List.replicate i ackResp ++ r :: rest)).1 =
      (readChunks C content).take (i + 1) := by
  have hab := runChunks_abort content.length i (readChunks C content) 0 r rest
    hi hr
  have hup := upload_error C content (List.replicate i ackResp ++ r :: rest)
    (respErr r) hab.1
  rw [hup]
  exact ⟨rfl, hab.2⟩

theorem c2_ack_protocol_witness :
    (upload 1 [5] (List.replicate 0 ackResp ++
        ServerResp.msg (WsMessage.text "NAK") :: [])).2 =
      .error (respErr (ServerResp.msg (WsMessage.text "NAK"))) ∧
    sentFrames (upload 1 [5] (List.replicate 0 ackResp ++
        ServerResp.msg (WsMessage.text "NAK") :: [])).1 =
      (readChunks 1 [5]).take (0 + 1) :=
  c2_ack_protocol 1 [5] 0 (ServerResp.msg (WsMessage.text "NAK")) []
    (by decide) (by decide)

/-- C3 counterexample: for the one-byte file with chunk size 1 and an
acknowledging server, the loop's trace is send, callback, receive-ACK,
close: the callback invocation (index 1) comes before the receive of the
acknowledgement (index 2), so receiving the ACK for the chunk does not
precede the callback reporting that chunk's bytes. -/
theorem c3_counterexample :
    (upload 1 [0] [ackResp]).1 =
      [Ev.sendFrame [0], Ev.callback 1 1, Ev.recv ackResp,
        Ev.closeFrame "FILE_UPLOAD_DONE"] ∧
    List.findIdx isCallbackEv (upload 1 [0] [ackResp]).1 = 1 ∧
    List.findIdx isRecvEv (upload 1 [0] [ackResp]).1 = 2 ∧
    ¬ List.findIdx isRecvEv (upload 1 [0] [ackResp]).1 <
        List.findIdx isCallbackEv (upload 1 [0] [ackResp]).1 := by
  decide

/-- C3 corrected: the progress observer is invoked after the chunk is
sent but before its acknowledgement is received: the trace of every
successful upload is, per chunk, send-frame then callback then
receive-ACK, with the close frame last. -/
theorem c3_callback_order_amended (C : Nat) (content : List Nat)
    (resps : List ServerResp) (hok : (upload C content resps).2 = .ok ()) :
    (upload C content resps).1 =
      iterTrace content.length 0 (readChunks C content) ++
        [Ev.closeFrame "FILE_UPLOAD_DONE"] :=
  upload_ok_trace C content resps hok

theorem c3_callback_order_amended_witness :
    (upload 1 [0] [ackResp]).1 =
      iterTrace ([0] : List Nat).length 0 (readChunks 1 [0]) ++
        [Ev.closeFrame "FILE_UPLOAD_DONE"] :=
  c3_callback_order_amended 1 [0] [ackResp] rfl

/-- C4: across every upload — fully acknowledged, aborted, or failed —
the progress callbacks are non-decreasing in bytesSent, every callback
reports bytesSent at most the file size captured at the start and exactly
that size as totalBytes, and on a successful upload the final callback,
when any chunk was sent, reports bytesSent equal to totalBytes. -/
theorem c4_progress_invariant (C : Nat) (content : List Nat)
    (resps : List ServerResp) :
    List.Chain' (fun a b => a.1 ≤ b.1)
      (callbackEvs (upload C content resps).1) ∧
    (∀ p ∈ callbackEvs (upload C content resps).1,
      p.1 ≤ content.length ∧ p.2 = content.length) ∧
    ((upload C content resps).2 = .ok () →
      ∀ p, (callbackEvs (upload C content resps).1).getLast? = some p →
        p.1 = content.length) := by
  refine ⟨?_, ?_, ?_⟩
  · rw [callbackEvs_upload]
    exact callbackEvs_runChunks_chain content.length (readChunks C content)
      resps 0
  · intro p hp
    rw [callbackEvs_upload] at hp
    have hb := callbackEvs_runChunks_bound content.length (readChunks C content)
      resps 0 p hp
    refine ⟨?_, hb.2.2⟩
    have hsum_le : ((readChunks C content).map List.length).sum ≤
        content.length := by
      have hs := readChunks_sum C content
      by_cases hC : C = 0
      · rw [if_pos hC] at hs
        omega
      · rw [if_neg hC] at hs
        omega
    have := hb.2.1
    omega
  · intro hok p hlast
    have htr := upload_ok_trace C content resps hok
    rw [htr, callbackEvs_append] at hlast
    have hclose : callbackEvs [Ev.closeFrame "FILE_UPLOAD_DONE"] = [] := rfl
    rw [hclose, List.append_nil] at hlast
    by_cases hne : readChunks C content = []
    · rw [hne] at hlast
      simp [iterTrace, callbackEvs] at hlast
    · have hCne : C ≠ 0 := fun h0 => hne (by rw [h0, readChunks_zero])
      have hgl := callbackEvs_iterTrace_getLast content.length
        (readChunks C content) 0 hne
      rw [hgl] at hlast
      have hpe : ((0 : Nat) + ((readChunks C content).map List.length).sum,
          content.length) = p := Option.some.inj hlast
      have hsum := readChunks_sum C content
      rw [if_neg hCne] at hsum
      rw [← hpe]
      simp [hsum]

theorem c4_progress_invariant_witness :
    List.Chain' (fun a b => a.1 ≤ b.1)
      (callbackEvs (upload 2 [9, 9, 9] [ackResp, ackResp]).1) ∧
    (∀ p ∈ callbackEvs (upload 2 [9, 9, 9] [ackResp, ackResp]).1,
      p.1 ≤ ([9, 9, 9] : List Nat).length ∧
      p.2 = ([9, 9, 9] : List Nat).length) ∧
    (∀ p, (callbackEvs (upload 2 [9, 9, 9] [ackResp, ackResp]).1).getLast? =
        some p → p.1 = ([9, 9, 9] : List Nat).length) :=
  ⟨(c4_progress_invariant 2 [9, 9, 9] [ackResp, ackResp]).1,
    (c4_progress_invariant 2 [9, 9, 9] [ackResp, ackResp]).2.1,
    (c4_progress_invariant 2 [9, 9, 9] [ackResp, ackResp]).2.2 rfl⟩

/-- C5 counterexample: a client constructed with chunk size zero does not
fail at all: uploading a five-byte file sends no chunk and returns
success with only the close frame — there is no `InvalidConfig`
rejection anywhere in the code. -/
theorem c5_counterexample :
    upload (StreamShare.new "streamshare.wireway.ch" 0).chunk_size
      [1, 2, 3, 4, 5] [] = ([Ev.closeFrame "FILE_UPLOAD_DONE"], .ok ()) :=
  rfl

/-- C5 corrected: `new` stores a zero chunk size unchecked and `upload`
does not reject it: a read into the zero-length buffer returns zero at
once, so the loop exits immediately and the upload returns success after
sending only the close frame, for every file content and every server
behavior — no bytes of the file are ever sent. -/
theorem c5_zero_chunk_amended (url : String) (content : List Nat)
    (resps : List ServerResp) :
    upload (StreamShare.new url 0).chunk_size content resps =
      ([Ev.closeFrame "FILE_UPLOAD_DONE"], .ok ()) := by
  show upload 0 content resps = _
  simp [upload, readChunks_zero, runChunks]

/-! ## Claims: download -/

/-- C6: path resolution maps the destination as specified, in the
source's precedence order: an empty destination resolves to the suggested
filename in the current working context; an existing directory resolves
to that directory joined with the suggested filename; an existing regular
file resolves to the destination verbatim; a destination that exists but
is neither file nor directory fails with `invalidDestination`. -/
theorem c6_resolution_cases (fs : FPath → FsKind) (file_name : String)
    (dest : FPath) :
    (isEmptyPath dest = true →
      resolvePath fs file_name dest = .ok (parsePath file_name)) ∧
    (isEmptyPath dest = false → fs dest = .dir →
      resolvePath fs file_name dest =
        .ok (joinPath dest (parsePath file_name))) ∧
    (isEmptyPath dest = false → fs dest = .file →
      resolvePath fs file_name dest = .ok dest) ∧
    (isEmptyPath dest = false → fs dest = .other →
      resolvePath fs file_name dest = .error .invalidDestination) := by
  refine ⟨?_, ?_, ?_, ?_⟩
  · intro he
    simp [resolvePath, he]
  · intro he hd
    simp [resolvePath, he, hd]
  · intro he hd
    simp [resolvePath, he, hd]
  · intro he hd
    simp [resolvePath, he, hd]

theorem c6_resolution_cases_witness :
    resolvePath fsDirD "name.txt" ⟨false, ["d"]⟩ =
      .ok (joinPath ⟨false, ["d"]⟩ (parsePath "name.txt")) :=
  (c6_resolution_cases fsDirD "name.txt" ⟨false, ["d"]⟩).2.1 rfl rfl

/-- C7: for a nonempty destination that does not exist: when its parent
exists and is a directory, the resolved path is the destination verbatim;
when it has no parent (a root path), it is used verbatim; otherwise
resolution fails with `parentMissing` and the download performs no
filesystem mutation at all (no directory created, no file created or
written). -/
theorem c7_nonexistent_destination (fs : FPath → FsKind) (file_name : String)
    (dest : FPath) (hne : isEmptyPath dest = false)
    (habs : fs dest = .absent) :
    (∀ par, dest.parent = some par → fs par = .dir →
      resolvePath fs file_name dest = .ok dest) ∧
    (dest.parent = none → resolvePath fs file_name dest = .ok dest) ∧
    (∀ par, dest.parent = some par → fs par ≠ .dir →
      resolvePath fs file_name dest = .error .parentMissing) ∧
    (∀ par, dest.parent = some par → fs par ≠ .dir →
      ∀ (fid : String) (header : Option String) (replace : Bool)
        (body : Except Unit (List Nat)),
        download fs fid header dest replace body =
          ([], .error .parentMissing)) := by
  have hcommon : ∀ (fn : String), ∀ par, dest.parent = some par →
      fs par ≠ .dir → resolvePath fs fn dest = .error .parentMissing := by
    intro fn par hpar hnd
    simp [resolvePath, hne, habs, hpar, hnd]
  refine ⟨?_, ?_, hcommon file_name, ?_⟩
  · intro par hpar hd
    have hnabs : fs par ≠ FsKind.absent := by
      rw [hd]
      intro hcontra
      cases hcontra
    simp [resolvePath, hne, habs, hpar, hd, hnabs]
  · intro hpar
    simp [resolvePath, hne, habs, hpar]
  · intro par hpar hnd fid header replace body
    unfold download
    rw [hcommon (parseFileName fid header) par hpar hnd]

theorem c7_nonexistent_destination_witness :
    resolvePath fsDirD "n" ⟨false, ["d", "new"]⟩ = .ok ⟨false, ["d", "new"]⟩ ∧
    download fsEmpty "id" none ⟨false, ["x", "y"]⟩ false (.ok [1]) =
      ([], .error .parentMissing) :=
  ⟨(c7_nonexistent_destination fsDirD "n" ⟨false, ["d", "new"]⟩ rfl
      (by decide)).1 ⟨false, ["d"]⟩ rfl rfl,
    (c7_nonexistent_destination fsEmpty "id.unknown" ⟨false, ["x", "y"]⟩ rfl
      rfl).2.2.2 ⟨false, ["x"]⟩ rfl (by decide) "id" none false (.ok [1])⟩

/-- C8: when the resolved path already exists and `replace` is false, the
download fails with `alreadyExists` and performs no filesystem mutation:
the existence check precedes any directory creation or `File::create`,
so the pre-existing file is untouched. -/
theorem c8_already_exists (fs : FPath → FsKind) (fid : String)
    (header : Option String) (dest : FPath) (body : Except Unit (List Nat))
    (fp : FPath)
    (hres : resolvePath fs (parseFileName fid header) dest = .ok fp)
    (hex : fs fp ≠ .absent) :
    download fs fid header dest false body = ([], .error .alreadyExists) := by
  unfold download
  rw [hres]
  show downloadWrite fs false fp body = ([], .error DlErr.alreadyExists)
  unfold downloadWrite
  rw [if_pos ⟨hex, rfl⟩]

theorem c8_already_exists_witness :
    download fsFileF "id" none ⟨false, ["f"]⟩ false (.ok [1]) =
      ([], .error .alreadyExists) :=
  c8_already_exists fsFileF "id" none ⟨false, ["f"]⟩ (.ok [1]) ⟨false, ["f"]⟩
    rfl (by decide)

/-- C9 counterexample: with destination `d/newfile` under the existing
directory `d` and a body read that fails after path resolution, the
download returns an error but has already performed `File::create` on the
resolved path: the filesystem is not left as it was before the call (a
file was created — and an existing file would have been truncated —
before the body was read). -/
theorem c9_counterexample :
    download fsDirD "id" none ⟨false, ["d", "newfile"]⟩ true (.error ()) =
      ([DlEv.createFile ⟨false, ["d", "newfile"]⟩], .error .bodyReadFailed) ∧
    DlEv.createFile ⟨false, ["d", "newfile"]⟩ ∈
      (download fsDirD "id" none ⟨false, ["d", "newfile"]⟩ true
        (.error ())).1 :=
  ⟨rfl, by decide⟩

/-- C9 corrected: on any failing download no content is ever written (no
`write_all` event occurs), and a failure at resolution or at the
exists/replace check performs no mutation at all; but `File::create` runs
before the body is read, so a body-read failure after the checks leaves a
newly created or truncated file at the resolved path. -/
theorem c9_no_partial_content_amended (fs : FPath → FsKind) (fid : String)
    (header : Option String) (dest : FPath) (replace : Bool)
    (body : Except Unit (List Nat)) (e : DlErr)
    (he : (download fs fid header dest replace body).2 = .error e) :
    ∀ p c, DlEv.writeAll p c ∉
      (download fs fid header dest replace body).1 := by
  intro p c
  unfold download at he ⊢
  cases hres : resolvePath fs (parseFileName fid header) dest with
  | error e2 =>
    simp
  | ok fp =>
    rw [hres] at he
    show DlEv.writeAll p c ∉ (downloadWrite fs replace fp body).1
    replace he : (downloadWrite fs replace fp body).2 = .error e := he
    by_cases hex : fs fp ≠ FsKind.absent ∧ replace = false
    · simp [downloadWrite, hex]
    · cases body with
      | ok content =>
        exfalso
        simp [downloadWrite, hex] at he
      | error u =>
        cases hpar : fp.parent with
        | none => simp [downloadWrite, hex, hpar]
        | some par =>
          by_cases hab : fs par = FsKind.absent
          · simp [downloadWrite, hex, hpar, hab]
          · simp [downloadWrite, hex, hpar, hab]

theorem c9_no_partial_content_amended_witness :
    DlEv.writeAll ⟨false, ["d", "newfile"]⟩ [0] ∉
      (download fsDirD "id" none ⟨false, ["d", "newfile"]⟩ true
        (.error ())).1 :=
  c9_no_partial_content_amended fsDirD "id" none ⟨false, ["d", "newfile"]⟩
    true (.error ()) .bodyReadFailed rfl ⟨false, ["d", "newfile"]⟩ [0]

/-- C10: the server-supplied filename is used without sanitization.  The
header value `attachment; filename="../escape"` parses to `../escape`;
resolved against the empty destination it yields the relative path
`../escape`, which escapes the current working context; resolved against
the existing directory `d` it yields `d/../escape`, which normalizes
outside `d`.  And with filename `a/b` and empty destination, the missing
intermediate directory `a` is created (`create_dir_all`) before the file
is created and the body written. -/
theorem c10_unsanitized_filename :
    parseFileName "id" (some "attachment; filename=\"../escape\"") =
      "../escape" ∧
    resolvePath fsEmpty "../escape" ⟨false, []⟩ =
      .ok ⟨false, ["..", "escape"]⟩ ∧
    outsideCwd ⟨false, ["..", "escape"]⟩ = true ∧
    resolvePath fsDirD "../escape" ⟨false, ["d"]⟩ =
      .ok ⟨false, ["d", "..", "escape"]⟩ ∧
    insideDir ⟨false, ["d"]⟩ ⟨false, ["d", "..", "escape"]⟩ = false ∧
    download fsEmpty "id" (some "attachment; filename=a/b") ⟨false, []⟩
        false (.ok [1, 2]) =
      ([DlEv.createDirAll ⟨false, ["a"]⟩, DlEv.createFile ⟨false, ["a", "b"]⟩,
        DlEv.writeAll ⟨false, ["a", "b"]⟩ [1, 2]], .ok ()) := by
  refine ⟨?_, ?_, ?_, ?_, ?_, ?_⟩ <;> rfl

end StreamshareModel
